import Mathlib

unseal Rat.add Rat.sub Rat.mul Rat.inv

/-
Shallow embedding of the njitschedulepro core:
the data model (api/app/models.py), the backtracking solver (api/app/solver.py)
and the CSV normalizer (api/app/normalizer.py).
Python machine values are modelled as: int -> Int/Nat, float -> Rat,
str -> String (processed as List Char), Optional[T] -> Option T.
Python falsy tests on optionals (`if x:`) are modelled explicitly:
`none`, the empty list/string and the number 0 are falsy.
-/

inductive DayOfWeek where
  | mon
  | tue
  | wed
  | thu
  | fri
  | sat
  | sun
deriving DecidableEq

/-- The serialized three-letter tag of a day (`DayOfWeek(str, Enum)` values). -/
def day_val : DayOfWeek → String
  | .mon => "Mon"
  | .tue => "Tue"
  | .wed => "Wed"
  | .thu => "Thu"
  | .fri => "Fri"
  | .sat => "Sat"
  | .sun => "Sun"

inductive Status where
  | open_
  | closed
  | waitlist
deriving DecidableEq

inductive DeliveryMode where
  | inPerson
  | online
  | hybrid
  | asyncMode
deriving DecidableEq

structure Meeting where
  day : DayOfWeek
  start_min : Int
  end_min : Int
  location : Option String
deriving DecidableEq

structure Offering where
  crn : String
  course_key : String
  sectionId : String
  title : String
  term : Option String
  meetings : List Meeting
  status : Status
  capacity : Option Int
  enrolled : Option Int
  instructor : Option String
  delivery : DeliveryMode
  credits : Option ℚ
  info : Option String
  comments : Option String
deriving DecidableEq

structure AvailabilityBlock where
  day : DayOfWeek
  start_min : Int
  end_min : Int
deriving DecidableEq

structure ScheduleFilters where
  status : List Status
  delivery : Option (List DeliveryMode)
  campus_include : Option (List String)
  campus_exclude : Option (List String)
  avoid_instructors : Option (List String)
  prefer_instructors : Option (List String)
  earliest_start : Option Int
  latest_end : Option Int
  max_gap_min : Option Int
  include_honors : Bool
  include_non_honors : Bool
deriving DecidableEq

structure SolveRequest where
  required_course_keys : List String
  optional_course_keys : Option (List String)
  min_credits : Option ℚ
  max_credits : Option ℚ
  unavailable : List AvailabilityBlock
  filters : ScheduleFilters
  max_results : Nat
deriving DecidableEq

structure Schedule where
  offerings : List Offering
  total_credits : ℚ
  score : ℚ
deriving DecidableEq

/-- `Meeting.overlaps` from models.py: same day and the half-open
intervals intersect. -/
def Meeting.overlaps (m other : Meeting) : Bool :=
  if m.day = other.day then
    decide (¬ (m.end_min ≤ other.start_min ∨ m.start_min ≥ other.end_min))
  else false

/-- `Meeting.conflicts_with_unavailable` from models.py. -/
def Meeting.conflicts_with_unavailable (m : Meeting) (us ue : Int) : Bool × Int :=
  if m.end_min ≤ us ∨ m.start_min ≥ ue then (false, 0)
  else (true, min m.end_min ue - max m.start_min us)

/-- `Offering.overlaps_with` from models.py: some pair of meetings overlaps. -/
def Offering.overlaps_with (a other : Offering) : Bool :=
  a.meetings.any fun m1 => other.meetings.any fun m2 => m1.overlaps m2

/-- `Offering.seats_available` from models.py. -/
def Offering.seats_available (o : Offering) : Option Int :=
  match o.capacity, o.enrolled with
  | some c, some e => some (max 0 (c - e))
  | _, _ => none

/-- `Offering.is_honors` from models.py: uppercased section starts with H. -/
def Offering.is_honors (o : Offering) : Bool :=
  match o.sectionId.data.map Char.toUpper with
  | [] => false
  | c :: _ => decide (c = 'H')

/-- Claim C10: meeting overlap is symmetric:
`m1.overlaps(m2) = m2.overlaps(m1)` for every pair of meetings. -/
theorem C10_overlaps_symm (m1 m2 : Meeting) : m1.overlaps m2 = m2.overlaps m1 := by
  unfold Meeting.overlaps
  by_cases h : m1.day = m2.day
  · rw [if_pos h, if_pos h.symm]
    have hiff : (¬ (m1.end_min ≤ m2.start_min ∨ m1.start_min ≥ m2.end_min)) ↔
        (¬ (m2.end_min ≤ m1.start_min ∨ m2.start_min ≥ m1.end_min)) := by omega
    exact decide_eq_decide.mpr hiff
  · rw [if_neg h, if_neg (fun hh => h hh.symm)]

/-
String helpers. Python string tests are done character-wise so that every
definition evaluates by kernel reduction.
-/

/-- Characters of a string mapped to lower case (Python `.lower()`). -/
def lower_chars (s : String) : List Char := s.data.map Char.toLower

/-- Whether the first list is a leading segment of the second. -/
def leads_chars : List Char → List Char → Bool
  | [], _ => true
  | _ :: _, [] => false
  | a :: as, b :: bs => if a = b then leads_chars as bs else false

/-- Whether the first list occurs contiguously inside the second
(Python `needle in haystack`; the empty needle always matches). -/
def has_sub (n : List Char) : List Char → Bool
  | [] => leads_chars n []
  | c :: h => leads_chars n (c :: h) || has_sub n h

/-- Python `needle.lower() in haystack.lower()`. -/
def contains_lower (needle hay : String) : Bool :=
  has_sub (lower_chars needle) (lower_chars hay)

/-- Python `str.strip()` (whitespace from both ends). -/
def strip (s : String) : String :=
  String.mk (((s.data.dropWhile Char.isWhitespace).reverse.dropWhile Char.isWhitespace).reverse)

/-- Whether the string is non-empty and all decimal digits (Python `str.isdigit()`). -/
def is_digits (s : String) : Bool :=
  !s.data.isEmpty && s.data.all Char.isDigit

/-- Decimal value of a digit string (Python `int` on a digit string). -/
def digits_val (l : List Char) : Nat :=
  l.foldl (fun a c => a * 10 + (c.toNat - 48)) 0

/-
Filter engine (`ScheduleSolver._prefilter_offerings` in solver.py).
Each predicate mirrors one `continue` test of the source; an offering is
kept when no test fires.
-/

/-- Status filter: `offering.status not in filters.status` rejects. -/
def status_ok (f : ScheduleFilters) (o : Offering) : Bool :=
  f.status.any fun s => decide (s = o.status)

/-- Delivery filter: rejects when `filters.delivery` is truthy and the
offering's delivery is not in the list. -/
def delivery_ok (f : ScheduleFilters) (o : Offering) : Bool :=
  match f.delivery with
  | none => true
  | some l => if l = [] then true else l.any fun d => decide (d = o.delivery)

/-- Instructor filter: rejects when `filters.avoid_instructors` and the
offering's instructor are both truthy and some avoided substring occurs
case-insensitively in the instructor. -/
def avoid_ok (f : ScheduleFilters) (o : Offering) : Bool :=
  match f.avoid_instructors, o.instructor with
  | some l, some instr =>
      if l = [] ∨ instr = "" then true
      else !(l.any fun a => contains_lower a instr)
  | _, _ => true

/-- Whether a meeting has a truthy location containing (case-insensitively)
one of the given campus substrings. -/
def loc_matches (m : Meeting) (l : List String) : Bool :=
  match m.location with
  | some s => decide (s ≠ "") && l.any fun c => contains_lower c s
  | none => false

/-- Campus exclusion: rejects when `filters.campus_exclude` and
`offering.meetings` are both truthy and some meeting matches an excluded
campus substring. -/
def campus_exclude_ok (f : ScheduleFilters) (o : Offering) : Bool :=
  match f.campus_exclude with
  | none => true
  | some l =>
      if l = [] ∨ o.meetings = [] then true
      else !(o.meetings.any fun m => loc_matches m l)

/-- Campus inclusion: rejects when `filters.campus_include` and
`offering.meetings` are both truthy and no meeting matches an included
campus substring. -/
def campus_include_ok (f : ScheduleFilters) (o : Offering) : Bool :=
  match f.campus_include with
  | none => true
  | some l =>
      if l = [] ∨ o.meetings = [] then true
      else o.meetings.any fun m => loc_matches m l

/-- Time-window filter: every meeting must start at or after
`earliest_start` and end at or before `latest_end` when those are set
(the source compares with `is not None`, so 0 counts as set). -/
def time_ok (f : ScheduleFilters) (o : Offering) : Bool :=
  o.meetings.all fun m =>
    (match f.earliest_start with
     | some e => decide (m.start_min ≥ e)
     | none => true) &&
    (match f.latest_end with
     | some l => decide (m.end_min ≤ l)
     | none => true)

/-- Honors gating from the source's two `continue` tests. -/
def honors_ok (f : ScheduleFilters) (o : Offering) : Bool :=
  (!o.is_honors || f.include_honors) && (o.is_honors || f.include_non_honors)

/-- Whether `_prefilter_offerings` keeps the offering (no test fires). -/
def prefilter_keep (f : ScheduleFilters) (o : Offering) : Bool :=
  status_ok f o && delivery_ok f o && avoid_ok f o && campus_exclude_ok f o &&
    campus_include_ok f o && time_ok f o && honors_ok f o

/-- The filtered candidate list for one course key: the offerings of the
catalog grouped under the key (grouping preserves catalog order), then
prefiltered. -/
def candidates_for (catalog : List Offering) (f : ScheduleFilters) (ck : String) :
    List Offering :=
  ((catalog.filter fun o => decide (o.course_key = ck)).filter fun o => prefilter_keep f o)

/-
Solver (`ScheduleSolver` in solver.py).
-/

/-- `ScheduleSolver._has_conflict`: the offering overlaps some offering
already in the partial schedule. -/
def has_conflict (o : Offering) (sched : List Offering) : Bool :=
  sched.any fun e => o.overlaps_with e

/-- `ScheduleSolver._conflicts_with_availability`: some meeting conflicts
with an unavailable block of its day. -/
def conflicts_with_availability (unavail : List AvailabilityBlock) (o : Offering) : Bool :=
  o.meetings.any fun m =>
    (unavail.filter fun b => decide (b.day = m.day)).any fun b =>
      (m.conflicts_with_unavailable b.start_min b.end_min).1

/-- Strict lexicographic order on `(start, end)` pairs (Python tuple `<`). -/
def pair_lt (a b : Int × Int) : Bool :=
  decide (a.1 < b.1) || (decide (a.1 = b.1) && decide (a.2 < b.2))

/-- Insert one pair into a sorted list (after any equal element). -/
def ins_pair (x : Int × Int) : List (Int × Int) → List (Int × Int)
  | [] => [x]
  | y :: ys => if pair_lt x y then x :: y :: ys else y :: ins_pair x ys

/-- Stable sort of `(start, end)` pairs (Python `sorted`). -/
def sort_pairs (l : List (Int × Int)) : List (Int × Int) :=
  l.foldl (fun acc x => ins_pair x acc) []

/-- The contribution of one inter-meeting gap to the gap total: positive
gaps count; a gap beyond a truthy `max_gap_min` counts tenfold. -/
def gap_contrib (maxGap : Option Int) (gap : Int) : Int :=
  if gap > 0 then
    match maxGap with
    | some g => if g ≠ 0 ∧ gap > g then 10 * gap else gap
    | none => gap
  else 0

/-- The gaps between consecutive meetings of one sorted day list. -/
def adj_gaps (maxGap : Option Int) : List (Int × Int) → Int
  | a :: b :: rest => gap_contrib maxGap (b.1 - a.2) + adj_gaps maxGap (b :: rest)
  | _ => 0

/-- Per-day gap total (`_compute_total_gaps` body for one day). -/
def day_gaps (maxGap : Option Int) (ms : List (Int × Int)) : Int :=
  if ms.length ≤ 1 then 0 else adj_gaps maxGap (sort_pairs ms)

/-- All meetings of a schedule in traversal order. -/
def all_meetings : List Offering → List Meeting
  | [] => []
  | o :: os => o.meetings ++ all_meetings os

def all_days : List DayOfWeek :=
  [.mon, .tue, .wed, .thu, .fri, .sat, .sun]

/-- `ScheduleSolver._compute_total_gaps`: sum the per-day gap totals. -/
def compute_total_gaps (maxGap : Option Int) (sched : List Offering) : Int :=
  (all_days.map fun d =>
    day_gaps maxGap ((all_meetings sched).filterMap fun m =>
      if m.day = d then some (m.start_min, m.end_min) else none)).foldl (· + ·) 0

/-- The tie-break value of one CRN: its decimal value when it is a digit
string, otherwise the ambient string hash `h` (Python `hash`). -/
def crn_val (h : String → Int) (crn : String) : Int :=
  if is_digits crn then (digits_val crn.data : Int) else h crn

/-- `ScheduleSolver._compute_score`: gap term (weight 1000), instructor
preference (weight 100), open seats (weight 1), CRN tie-break
(weight 1/1000). -/
def compute_score (h : String → Int) (f : ScheduleFilters) (sched : List Offering) : ℚ :=
  let gaps := compute_total_gaps f.max_gap_min sched
  let prefer := match f.prefer_instructors with
    | some l => l
    | none => []
  let bonus : Nat := sched.countP fun o =>
    match o.instructor with
    | some instr => decide (instr ≠ "") && !prefer.isEmpty &&
        (prefer.any fun p => contains_lower p instr)
    | none => false
  let seats : Int := (sched.map fun o =>
    match o.seats_available with
    | some n => n
    | none => 0).foldl (· + ·) 0
  let crn_sum : Int := (sched.map fun o => crn_val h o.crn).foldl (· + ·) 0
  (gaps : ℚ) * 1000 - (bonus : ℚ) * 100 - (seats : ℚ) + ((crn_sum % 1000 : Int) : ℚ) / 1000

/-- The CRN-set signature of a complete schedule (Python `frozenset`). -/
def sig_of (sched : List Offering) : Finset String :=
  (sched.map Offering.crn).toFinset

/-- Solver search state: the result buffer and the seen signatures. -/
structure SState where
  results : List Schedule
  seen : List (Finset String)
deriving DecidableEq

/-- `sum(o.credits for o in current_schedule if o.credits is not None)`. -/
def total_credits_of (cur : List Offering) : ℚ :=
  (cur.filterMap Offering.credits).foldl (· + ·) 0

/-- The falsy-guarded minimum-credits check of `_backtrack`:
`if self.request.min_credits and total_credits < self.request.min_credits`. -/
def min_credits_fail (req : SolveRequest) (tc : ℚ) : Bool :=
  match req.min_credits with
  | some m => decide (m ≠ 0) && decide (tc < m)
  | none => false

/-- The falsy-guarded maximum-credits check of `_backtrack`. -/
def max_credits_fail (req : SolveRequest) (tc : ℚ) : Bool :=
  match req.max_credits with
  | some m => decide (m ≠ 0) && decide (tc > m)
  | none => false

/-- Leaf handling of `_backtrack` (all courses placed): the falsy-guarded
credit checks, signature deduplication, scoring, and appending. -/
def leaf_step (h : String → Int) (req : SolveRequest) (cur : List Offering)
    (st : SState) : SState :=
  if min_credits_fail req (total_credits_of cur) then st
  else if max_credits_fail req (total_credits_of cur) then st
  else if st.seen.any fun s => decide (s = sig_of cur) then st
  else
    { results := st.results ++
        [⟨cur, total_credits_of cur, compute_score h req.filters cur⟩],
      seen := sig_of cur :: st.seen }

/-- The candidate loop of `_backtrack`: try each offering in order,
skipping conflicting ones, recursing through `step` otherwise. -/
def try_offs (step : List Offering → SState → SState) (unavail : List AvailabilityBlock)
    (cur : List Offering) : List Offering → SState → SState
  | [], st => st
  | o :: os, st =>
      try_offs step unavail cur os
        (if has_conflict o cur || conflicts_with_availability unavail o then st
         else step (cur ++ [o]) st)

/-- `ScheduleSolver._backtrack` over the ordered course keys. -/
def backtrack (h : String → Int) (catalog : List Offering) (req : SolveRequest) :
    List String → List Offering → SState → SState
  | [], cur, st => leaf_step h req cur st
  | ck :: rest, cur, st =>
      try_offs (backtrack h catalog req rest) req.unavailable cur
        (candidates_for catalog req.filters ck) st

/-- Insert a course key into a list sorted by candidate count
(after any key of equal count: Python's stable sort). -/
def ins_key (cnt : String → Nat) (s : String) : List String → List String
  | [] => [s]
  | t :: ts => if cnt s < cnt t then s :: t :: ts else t :: ins_key cnt s ts

/-- Stable sort of the required course keys by candidate count
(the fail-first ordering of `ScheduleSolver.solve`). -/
def sort_keys (cnt : String → Nat) (l : List String) : List String :=
  l.foldl (fun acc s => ins_key cnt s acc) []

/-- The fail-first ordering of the required course keys in
`ScheduleSolver.solve`. -/
def ordered_keys (catalog : List Offering) (req : SolveRequest) : List String :=
  sort_keys (fun ck => (candidates_for catalog req.filters ck).length)
    req.required_course_keys

/-- The raw result buffer of one solve (before sorting and truncation):
empty when some required course has no candidates. -/
def solve_results (h : String → Int) (catalog : List Offering) (req : SolveRequest) :
    List Schedule :=
  if (ordered_keys catalog req).any
      (fun ck => (candidates_for catalog req.filters ck).isEmpty) then []
  else (backtrack h catalog req (ordered_keys catalog req) [] ⟨[], []⟩).results

/-- Insert a schedule into a list sorted by score (after equal scores:
Python's stable sort). -/
def ins_sched (s : Schedule) : List Schedule → List Schedule
  | [] => [s]
  | t :: ts => if s.score < t.score then s :: t :: ts else t :: ins_sched s ts

/-- Stable ascending sort of the result buffer by score. -/
def sort_schedules (l : List Schedule) : List Schedule :=
  l.foldl (fun acc s => ins_sched s acc) []

/-- `solve_schedules` from solver.py: sort the buffer by score and return
the first `max_results` schedules. `h` is the ambient string-hash used by
the tie-break for non-numeric CRNs. -/
def solve_schedules (h : String → Int) (catalog : List Offering) (req : SolveRequest) :
    List Schedule :=
  (sort_schedules (solve_results h catalog req)).take req.max_results

/-
Normalizer (normalizer.py).
-/

/-- `DAY_MAP` from normalizer.py; unknown characters map to `none` and
are skipped. -/
def day_map (c : Char) : Option DayOfWeek :=
  match c with
  | 'M' => some .mon
  | 'T' => some .tue
  | 'W' => some .wed
  | 'R' => some .thu
  | 'F' => some .fri
  | 'S' => some .sat
  | 'U' => some .sun
  | _ => none

/-- Whether the string uppercases to exactly "TBA". -/
def is_tba (s : String) : Bool :=
  decide (s.data.map Char.toUpper = "TBA".data)

/-- `parse_days` from normalizer.py. -/
def parse_days (s : String) : List DayOfWeek :=
  if strip s = "" ∨ is_tba s then []
  else ((strip s).data.map Char.toUpper).filterMap day_map

/-- Meridiem suffix match: optional whitespace then exactly `AM`, `PM`,
`am` or `pm` (the regex alternation); `true` means PM. -/
def merid (rest : List Char) : Option Bool :=
  match rest.dropWhile Char.isWhitespace with
  | 'A' :: 'M' :: _ => some false
  | 'P' :: 'M' :: _ => some true
  | 'a' :: 'm' :: _ => some false
  | 'p' :: 'm' :: _ => some true
  | _ => none

/-- The regex of `parse_time` with a two-digit hour. -/
def two_digit_try (l : List Char) : Option (Nat × Nat × Bool) :=
  match l with
  | a :: b :: ':' :: c :: d :: rest =>
      if a.isDigit ∧ b.isDigit ∧ c.isDigit ∧ d.isDigit then
        (merid rest).map fun pm =>
          ((a.toNat - 48) * 10 + (b.toNat - 48), (c.toNat - 48) * 10 + (d.toNat - 48), pm)
      else none
  | _ => none

/-- The regex of `parse_time` with a one-digit hour (the backtracking
alternative). -/
def one_digit_try (l : List Char) : Option (Nat × Nat × Bool) :=
  match l with
  | a :: ':' :: c :: d :: rest =>
      if a.isDigit ∧ c.isDigit ∧ d.isDigit then
        (merid rest).map fun pm => (a.toNat - 48, (c.toNat - 48) * 10 + (d.toNat - 48), pm)
      else none
  | _ => none

/-- 12-hour to minutes-from-midnight conversion of `parse_time`. -/
def to_minutes (hour minute : Nat) (pm : Bool) : Int :=
  let h : Nat := if pm ∧ hour ≠ 12 then hour + 12 else if ¬ pm ∧ hour = 12 then 0 else hour
  (h * 60 + minute : Nat)

/-- `parse_time` from normalizer.py. -/
def parse_time (s : String) : Option Int :=
  if strip s = "" ∨ is_tba s then none
  else
    match two_digit_try (strip s).data with
    | some (h, m, pm) => some (to_minutes h m pm)
    | none =>
        match one_digit_try (strip s).data with
        | some (h, m, pm) => some (to_minutes h m pm)
        | none => none

/-- One alternative of the range separator: optional whitespace, a dash,
optional whitespace. Returns the characters after the separator. -/
def dash_sep (l : List Char) : Option (List Char) :=
  match l.dropWhile Char.isWhitespace with
  | '-' :: rest => some (rest.dropWhile Char.isWhitespace)
  | _ => none

/-- The other alternative: whitespace, `to`, whitespace. -/
def to_sep (l : List Char) : Option (List Char) :=
  if (l.takeWhile Char.isWhitespace).isEmpty then none
  else
    match l.dropWhile Char.isWhitespace with
    | 't' :: 'o' :: r2 =>
        if (r2.takeWhile Char.isWhitespace).isEmpty then none
        else some (r2.dropWhile Char.isWhitespace)
    | _ => none

/-- The leftmost-first single split of `re.split` in `parse_times`:
scan left to right; at each position try the dash alternative, then the
`to` alternative. -/
def split_sep : List Char → Option (List Char × List Char)
  | [] => none
  | c :: cs =>
      match dash_sep (c :: cs) with
      | some r => some ([], r)
      | none =>
          match to_sep (c :: cs) with
          | some r => some ([], r)
          | none =>
              match split_sep cs with
              | some (l, r) => some (c :: l, r)
              | none => none

/-- `parse_times` from normalizer.py: split once on `-` or ` to ` and
parse both sides. -/
def parse_times (s : String) : Option Int × Option Int :=
  if strip s = "" ∨ is_tba s then (none, none)
  else
    match split_sep (strip s).data with
    | none => (none, none)
    | some (l, r) => (parse_time (String.mk l), parse_time (String.mk r))

/-- Whether the character is in the regex class `[A-Z]`. -/
def is_upper_alpha (c : Char) : Bool :=
  decide ('A' ≤ c) && decide (c ≤ 'Z')

/-- `extract_course_key` from normalizer.py. -/
def extract_course_key (s : String) : String :=
  let u := (strip s).data.map Char.toUpper
  let subj := u.takeWhile is_upper_alpha
  let r2 := (u.dropWhile is_upper_alpha).dropWhile Char.isWhitespace
  let num := r2.takeWhile Char.isDigit
  let suf := (r2.dropWhile Char.isDigit).takeWhile is_upper_alpha
  if subj = [] ∨ num = [] then String.mk u
  else String.mk (subj ++ [' '] ++ num ++ suf)

/-- `normalize_status` from normalizer.py. -/
def normalize_status (s : String) : Status :=
  if s = "" then .open_
  else
    let t := String.mk ((strip s).data.map Char.toLower)
    if has_sub "closed".data t.data then .closed
    else if has_sub "wait".data t.data then .waitlist
    else .open_

/-- `normalize_delivery` from normalizer.py. -/
def normalize_delivery (d loc : String) : DeliveryMode :=
  if d = "" then
    if decide (loc ≠ "") &&
        (has_sub "online".data (lower_chars loc) || has_sub "web".data (lower_chars loc)) then
      .online
    else .inPerson
  else
    let t := (strip d).data.map Char.toLower
    if has_sub "online".data t || has_sub "web".data t || has_sub "distance".data t then
      .online
    else if has_sub "hybrid".data t || has_sub "blended".data t then .hybrid
    else if has_sub "async".data t || has_sub "asynchronous".data t then .asyncMode
    else if has_sub "face-to-face".data t || has_sub "in-person".data t ||
        has_sub "in person".data t then .inPerson
    else .inPerson

/-- One logical CSV row with the columns read by `normalize_csv_row`;
a missing cell is the empty string. -/
structure Row where
  crn : String
  course : String
  title : String
  sectionId : String
  term : String
  days : String
  times : String
  location : String
  status : String
  deliveryMode : String
  maxCap : String
  now : String
  credits : String
  instructor : String
  info : String
  comments : String
deriving DecidableEq

/-- Python `int(field)` guarded by the emptiness test of the source:
`some none` for an empty cell, `some (some n)` for a parsed integer, and
`none` when `int` raises (the row is then dropped by the handler). -/
def parse_int_field (s : String) : Option (Option Int) :=
  if strip s = "" then some none
  else
    match (strip s).toInt? with
    | some n => some (some n)
    | none => none

/-- A decimal literal as a rational: optional sign, digits, optional
fractional digits (the shapes `float` accepts in catalog cells). -/
def parse_decimal (s : String) : Option ℚ :=
  let core : List Char → Option ℚ := fun l =>
    match l.span Char.isDigit with
    | (ds, []) => if ds.isEmpty then none else some ((digits_val ds : Int) : ℚ)
    | (ds, '.' :: fs) =>
        if ds.isEmpty ∨ fs.isEmpty ∨ ¬ fs.all Char.isDigit then none
        else some (((digits_val ds : Int) : ℚ) +
          ((digits_val fs : Int) : ℚ) / ((10 ^ fs.length : Nat) : ℚ))
    | _ => none
  match s.data with
  | '-' :: rest => (core rest).map fun q => -q
  | l => core l

/-- Python `float(field)` guarded as in `parse_int_field`. -/
def parse_rat_field (s : String) : Option (Option ℚ) :=
  if strip s = "" then some none
  else
    match parse_decimal (strip s) with
    | some q => some (some q)
    | none => none

/-- `normalize_csv_row` from normalizer.py: `none` when the row is
dropped (missing CRN or course key, or an unparseable numeric cell). -/
def normalize_csv_row (row : Row) : Option Offering :=
  let crn := strip row.crn
  if crn = "" then none
  else
    let ck := extract_course_key (strip row.course)
    if ck = "" then none
    else
      let days := parse_days (strip row.days)
      let se := parse_times (strip row.times)
      let meetings : List Meeting :=
        match se with
        | (some s, some e) =>
            if days.isEmpty then []
            else
              let loc := strip row.location
              days.map fun d => ⟨d, s, e, if loc = "" then none else some loc⟩
        | _ => []
      match parse_int_field row.maxCap, parse_int_field row.now,
          parse_rat_field row.credits with
      | some cap, some enr, some cr =>
          some
            { crn := crn, course_key := ck, sectionId := strip row.sectionId,
              title := strip row.title,
              term := if strip row.term = "" then none else some (strip row.term),
              meetings := meetings, status := normalize_status row.status,
              capacity := cap, enrolled := enr,
              instructor := if strip row.instructor = "" then none
                else some (strip row.instructor),
              delivery := normalize_delivery row.deliveryMode row.location,
              credits := cr,
              info := if strip row.info = "" then none else some (strip row.info),
              comments := if strip row.comments = "" then none
                else some (strip row.comments) }
      | _, _, _ => none

/-- Whether two meetings agree on day, start and end (the duplicate test
of `merge_offerings_by_crn`). -/
def meeting_same (a b : Meeting) : Bool :=
  decide (a.day = b.day) && decide (a.start_min = b.start_min) &&
    decide (a.end_min = b.end_min)

/-- Append one meeting unless an identical one is already present. -/
def add_meeting (ms : List Meeting) (m : Meeting) : List Meeting :=
  if ms.any fun x => meeting_same x m then ms else ms ++ [m]

/-- Merge the meetings of a later offering into the first one seen for
its CRN. -/
def merge_into (e o : Offering) : Offering :=
  { e with meetings := o.meetings.foldl add_meeting e.meetings }

/-- One step of `merge_offerings_by_crn` over the insertion-ordered
CRN map (modelled as a list). -/
def merge_step (acc : List Offering) (o : Offering) : List Offering :=
  if acc.any fun e => decide (e.crn = o.crn) then
    acc.map fun e => if e.crn = o.crn then merge_into e o else e
  else acc ++ [o]

/-- `merge_offerings_by_crn` from normalizer.py. -/
def merge_offerings_by_crn (os : List Offering) : List Offering :=
  os.foldl merge_step []

/-- Lexicographic comparison of character lists (Python `str` `<`). -/
def chars_lt : List Char → List Char → Bool
  | [], [] => false
  | [], _ :: _ => true
  | _ :: _, [] => false
  | a :: as, b :: bs => if a < b then true else if a = b then chars_lt as bs else false

/-- The sort key order of `deduplicate_offerings`:
`(meeting.day.value, meeting.start_min)` compared as a Python tuple. -/
def meet_key_lt (a b : Meeting) : Bool :=
  chars_lt (day_val a.day).data (day_val b.day).data ||
    (decide ((day_val a.day).data = (day_val b.day).data) &&
      decide (a.start_min < b.start_min))

/-- Insert a meeting into a key-sorted list (after equal keys: stable). -/
def ins_meet (m : Meeting) : List Meeting → List Meeting
  | [] => [m]
  | x :: xs => if meet_key_lt m x then m :: x :: xs else x :: ins_meet m xs

/-- Stable sort of meetings by `(day.value, start_min)`. -/
def sort_meets (l : List Meeting) : List Meeting :=
  l.foldl (fun acc m => ins_meet m acc) []

/-- The `(crn, meeting-signature)` pair of `deduplicate_offerings`. -/
def offering_sig (o : Offering) : String × List (DayOfWeek × Int × Int) :=
  (o.crn, (sort_meets o.meetings).map fun m => (m.day, m.start_min, m.end_min))

/-- The seen-set loop of `deduplicate_offerings`. -/
def dedup_go (seen : List (String × List (DayOfWeek × Int × Int))) :
    List Offering → List Offering
  | [] => []
  | o :: os =>
      if seen.any fun s => decide (s = offering_sig o) then dedup_go seen os
      else o :: dedup_go (offering_sig o :: seen) os

/-- `deduplicate_offerings` from normalizer.py. -/
def deduplicate_offerings (os : List Offering) : List Offering :=
  dedup_go [] os

/-
Claim-level predicates and invariant lemmas for the solver.
-/

/-- The claim's meeting compatibility: different days, or half-open
disjointness. -/
def MeetOk (m1 m2 : Meeting) : Prop :=
  m1.day ≠ m2.day ∨ m1.end_min ≤ m2.start_min ∨ m1.start_min ≥ m2.end_min

/-- The claim's offering compatibility: every pair of meetings drawn from
the two offerings is compatible. -/
def OffOk (o1 o2 : Offering) : Prop :=
  ∀ m1 ∈ o1.meetings, ∀ m2 ∈ o2.meetings, MeetOk m1 m2

theorem meetok_flip {m1 m2 : Meeting} (h : MeetOk m1 m2) : MeetOk m2 m1 := by
  rcases h with h | h | h
  · exact Or.inl (Ne.symm h)
  · exact Or.inr (Or.inr h)
  · exact Or.inr (Or.inl h)

theorem overlaps_eq_false_iff (m1 m2 : Meeting) :
    m1.overlaps m2 = false ↔ MeetOk m1 m2 := by
  unfold Meeting.overlaps MeetOk
  by_cases h : m1.day = m2.day
  · rw [if_pos h, decide_eq_false_iff_not, not_not]
    constructor
    · exact fun hab => Or.inr hab
    · rintro (hc | hab)
      · exact absurd h hc
      · exact hab
  · rw [if_neg h]
    constructor
    · intro _; exact Or.inl h
    · intro _; rfl

theorem offok_of_overlaps_with_false {a b : Offering}
    (hf : a.overlaps_with b = false) : OffOk b a := by
  intro m2 hm2 m1 hm1
  unfold Offering.overlaps_with at hf
  rw [List.any_eq_false] at hf
  have h2 := hf m1 hm1
  rw [Bool.not_eq_true, List.any_eq_false] at h2
  have h3 := h2 m2 hm2
  rw [Bool.not_eq_true] at h3
  exact meetok_flip ((overlaps_eq_false_iff m1 m2).mp h3)

/-- Every schedule in the buffer satisfies the pairwise no-overlap
property. -/
def ResOk (st : SState) : Prop :=
  ∀ S ∈ st.results, S.offerings.Pairwise OffOk

theorem leaf_step_resok (h : String → Int) (req : SolveRequest) (cur : List Offering)
    (st : SState) (hcur : cur.Pairwise OffOk) (hst : ResOk st) :
    ResOk (leaf_step h req cur st) := by
  unfold leaf_step
  split
  · exact hst
  · split
    · exact hst
    · split
      · exact hst
      · intro S hS
        rcases List.mem_append.mp hS with h1 | h2
        · exact hst S h1
        · rw [List.mem_singleton] at h2
          subst h2
          exact hcur

theorem try_offs_resok (step : List Offering → SState → SState)
    (unavail : List AvailabilityBlock) (cur : List Offering)
    (hstep : ∀ o, (has_conflict o cur || conflicts_with_availability unavail o) = false →
      ∀ s, ResOk s → ResOk (step (cur ++ [o]) s)) :
    ∀ os st, ResOk st → ResOk (try_offs step unavail cur os st) := by
  intro os
  induction os with
  | nil => intro st hst; exact hst
  | cons o os ih =>
      intro st hst
      show ResOk (try_offs step unavail cur os _)
      apply ih
      by_cases hc : (has_conflict o cur || conflicts_with_availability unavail o) = true
      · rw [if_pos hc]; exact hst
      · rw [if_neg hc]
        exact hstep o (Bool.eq_false_iff.mpr hc) st hst

theorem backtrack_resok (h : String → Int) (catalog : List Offering) (req : SolveRequest) :
    ∀ ks cur st, cur.Pairwise OffOk → ResOk st →
      ResOk (backtrack h catalog req ks cur st) := by
  intro ks
  induction ks with
  | nil => intro cur st h1 h2; exact leaf_step_resok h req cur st h1 h2
  | cons ck rest ih =>
      intro cur st h1 h2
      show ResOk (try_offs (backtrack h catalog req rest) req.unavailable cur
        (candidates_for catalog req.filters ck) st)
      refine try_offs_resok _ _ _ ?_ _ st h2
      intro o hok s hs
      refine ih (cur ++ [o]) s ?_ hs
      rw [List.pairwise_append]
      refine ⟨h1, List.pairwise_singleton _ _, ?_⟩
      intro a ha b hb
      rw [List.mem_singleton] at hb
      rw [hb]
      have hcf : has_conflict o cur = false := by
        rcases Bool.or_eq_false_iff.mp hok with ⟨hl, _⟩
        exact hl
      unfold has_conflict at hcf
      rw [List.any_eq_false] at hcf
      have := hcf a ha
      rw [Bool.not_eq_true] at this
      exact offok_of_overlaps_with_false this

theorem mem_ins_sched {S T : Schedule} : ∀ {l : List Schedule},
    S ∈ ins_sched T l → S = T ∨ S ∈ l := by
  intro l
  induction l with
  | nil => intro h; rw [ins_sched] at h; rw [List.mem_singleton] at h; exact Or.inl h
  | cons t ts ih =>
      intro h
      rw [ins_sched] at h
      split at h
      · rcases List.mem_cons.mp h with h1 | h1
        · exact Or.inl h1
        · exact Or.inr h1
      · rcases List.mem_cons.mp h with h1 | h1
        · exact Or.inr (h1 ▸ List.mem_cons_self t ts)
        · rcases ih h1 with h2 | h2
          · exact Or.inl h2
          · exact Or.inr (List.mem_cons_of_mem t h2)

theorem mem_sort_schedules_aux {S : Schedule} :
    ∀ (l acc : List Schedule), S ∈ l.foldl (fun a s => ins_sched s a) acc →
      S ∈ acc ∨ S ∈ l := by
  intro l
  induction l with
  | nil => intro acc h; exact Or.inl h
  | cons x xs ih =>
      intro acc h
      rcases ih (ins_sched x acc) h with h1 | h1
      · rcases mem_ins_sched h1 with h2 | h2
        · exact Or.inr (h2 ▸ List.mem_cons_self x xs)
        · exact Or.inl h2
      · exact Or.inr (List.mem_cons_of_mem x h1)

theorem mem_sort_schedules {S : Schedule} {l : List Schedule}
    (h : S ∈ sort_schedules l) : S ∈ l := by
  rcases mem_sort_schedules_aux l [] h with h1 | h1
  · exact absurd h1 (List.not_mem_nil S)
  · exact h1

/-- Claim C1: every schedule returned by `solve_schedules` is pairwise
conflict-free: for every pair of distinct offerings and every pair of
meetings drawn one from each, the meetings are on different days or one
ends at or before the other starts (half-open intervals). -/
theorem C1_no_overlap (h : String → Int) (catalog : List Offering) (req : SolveRequest)
    (S : Schedule) (hS : S ∈ solve_schedules h catalog req) :
    S.offerings.Pairwise OffOk := by
  have h1 : S ∈ sort_schedules (solve_results h catalog req) :=
    List.take_subset _ _ hS
  have h2 : S ∈ solve_results h catalog req := mem_sort_schedules h1
  unfold solve_results at h2
  split at h2
  · exact absurd h2 (List.not_mem_nil S)
  · exact backtrack_resok h catalog req _ [] ⟨[], []⟩ List.Pairwise.nil
      (fun T hT => absurd hT (List.not_mem_nil T)) S h2

/-
Hash-independence of solving when every CRN is numeric (claim C7).
-/

theorem map_congr_on {α β : Type _} (f g : α → β) :
    ∀ (l : List α), (∀ a ∈ l, f a = g a) → l.map f = l.map g := by
  intro l
  induction l with
  | nil => intro _; rfl
  | cons x xs ih =>
      intro hl
      rw [List.map_cons, List.map_cons, hl x (List.mem_cons_self x xs),
        ih fun a ha => hl a (List.mem_cons_of_mem x ha)]

theorem crn_val_numeric (h1 h2 : String → Int) (s : String) (hs : is_digits s = true) :
    crn_val h1 s = crn_val h2 s := by
  unfold crn_val
  rw [if_pos hs, if_pos hs]

theorem compute_score_hash_free (h1 h2 : String → Int) (f : ScheduleFilters)
    (sched : List Offering) (hs : ∀ o ∈ sched, is_digits o.crn = true) :
    compute_score h1 f sched = compute_score h2 f sched := by
  unfold compute_score
  rw [map_congr_on (fun o => crn_val h1 o.crn) (fun o => crn_val h2 o.crn) sched
    fun o ho => crn_val_numeric h1 h2 o.crn (hs o ho)]

theorem leaf_step_hash_free (h1 h2 : String → Int) (req : SolveRequest)
    (cur : List Offering) (st : SState) (hs : ∀ o ∈ cur, is_digits o.crn = true) :
    leaf_step h1 req cur st = leaf_step h2 req cur st := by
  unfold leaf_step
  rw [compute_score_hash_free h1 h2 req.filters cur hs]

theorem try_offs_congr (s1 s2 : List Offering → SState → SState)
    (unavail : List AvailabilityBlock) (cur : List Offering) :
    ∀ os, (∀ o ∈ os, ∀ st, s1 (cur ++ [o]) st = s2 (cur ++ [o]) st) →
      ∀ st, try_offs s1 unavail cur os st = try_offs s2 unavail cur os st := by
  intro os
  induction os with
  | nil => intro _ _; rfl
  | cons o os ih =>
      intro hl st
      by_cases hc : (has_conflict o cur || conflicts_with_availability unavail o) = true
      · show try_offs s1 unavail cur os _ = try_offs s2 unavail cur os _
        rw [if_pos hc, if_pos hc]
        exact ih (fun o' ho' st' => hl o' (List.mem_cons_of_mem o ho') st') st
      · show try_offs s1 unavail cur os _ = try_offs s2 unavail cur os _
        rw [if_neg hc, if_neg hc, hl o (List.mem_cons_self o os) st]
        exact ih (fun o' ho' st' => hl o' (List.mem_cons_of_mem o ho') st') _

theorem mem_catalog_of_mem_candidates {catalog : List Offering} {f : ScheduleFilters}
    {ck : String} {o : Offering} (ho : o ∈ candidates_for catalog f ck) : o ∈ catalog := by
  unfold candidates_for at ho
  exact (List.mem_filter.mp (List.mem_filter.mp ho).1).1

theorem backtrack_hash_free (h1 h2 : String → Int) (catalog : List Offering)
    (req : SolveRequest) (hcat : ∀ o ∈ catalog, is_digits o.crn = true) :
    ∀ ks cur st, (∀ o ∈ cur, is_digits o.crn = true) →
      backtrack h1 catalog req ks cur st = backtrack h2 catalog req ks cur st := by
  intro ks
  induction ks with
  | nil => intro cur st hcur; exact leaf_step_hash_free h1 h2 req cur st hcur
  | cons ck rest ih =>
      intro cur st hcur
      show try_offs (backtrack h1 catalog req rest) req.unavailable cur
          (candidates_for catalog req.filters ck) st =
        try_offs (backtrack h2 catalog req rest) req.unavailable cur
          (candidates_for catalog req.filters ck) st
      apply try_offs_congr
      · intro o ho st'
        apply ih
        intro x hx
        rcases List.mem_append.mp hx with hx1 | hx1
        · exact hcur x hx1
        · rw [List.mem_singleton] at hx1
          rw [hx1]
          exact hcat o (mem_catalog_of_mem_candidates ho)

/-- Claim C7, amended: when every CRN in the catalog is numeric, solving
does not depend on the ambient string hash at all, so any two invocations
of `solve_schedules` with equal catalog and request return equal schedule
lists element by element; the tie-break then adds
`0.001 * ((sum of integer CRN values) mod 1000)`. For a non-numeric CRN
the source uses Python's per-process salted `hash`, which is not
invocation-independent. -/
theorem C7_deterministic_numeric (h1 h2 : String → Int) (catalog : List Offering)
    (req : SolveRequest) (hcat : ∀ o ∈ catalog, is_digits o.crn = true) :
    solve_schedules h1 catalog req = solve_schedules h2 catalog req := by
  unfold solve_schedules solve_results
  rw [backtrack_hash_free h1 h2 catalog req hcat (ordered_keys catalog req) []
    ⟨[], []⟩ fun o ho => absurd ho (List.not_mem_nil o)]

/-
Idempotence of catalog merging (claim C9).
-/

theorem meeting_same_self (m : Meeting) : meeting_same m m = true := by
  simp [meeting_same]

theorem add_meeting_mem {ms : List Meeting} {m : Meeting} (hm : m ∈ ms) :
    add_meeting ms m = ms := by
  unfold add_meeting
  rw [if_pos]
  exact List.any_eq_true.mpr ⟨m, hm, meeting_same_self m⟩

theorem foldl_add_meeting_self (ms : List Meeting) :
    ∀ (l : List Meeting), (∀ m ∈ l, m ∈ ms) → l.foldl add_meeting ms = ms := by
  intro l
  induction l with
  | nil => intro _; rfl
  | cons m l ih =>
      intro hl
      rw [List.foldl_cons, add_meeting_mem (hl m (List.mem_cons_self m l))]
      exact ih fun x hx => hl x (List.mem_cons_of_mem m hx)

theorem merge_into_self (o : Offering) : merge_into o o = o := by
  unfold merge_into
  rw [foldl_add_meeting_self o.meetings o.meetings fun m hm => hm]

theorem crn_inj_of_nodup {C : List Offering} (h : (C.map Offering.crn).Nodup) :
    ∀ a ∈ C, ∀ b ∈ C, a.crn = b.crn → a = b := by
  intro a ha b hb hab
  exact List.inj_on_of_nodup_map h ha hb hab

theorem foldl_merge_fresh :
    ∀ (C acc : List Offering), (((acc ++ C).map Offering.crn).Nodup) →
      C.foldl merge_step acc = acc ++ C := by
  intro C
  induction C with
  | nil => intro acc _; simp
  | cons o rest ih =>
      intro acc h
      have hno : o.crn ∉ acc.map Offering.crn := by
        rw [List.map_append] at h
        have hd := (List.nodup_append.mp h).2.2
        intro hc
        exact hd hc (by rw [List.map_cons]; exact List.mem_cons_self _ _)
      rw [List.foldl_cons]
      have hstep : merge_step acc o = acc ++ [o] := by
        unfold merge_step
        rw [if_neg]
        intro hc
        rw [List.any_eq_true] at hc
        rcases hc with ⟨e, he, hde⟩
        rw [decide_eq_true_eq] at hde
        exact hno (hde ▸ List.mem_map_of_mem Offering.crn he)
      rw [hstep]
      have h2 : (((acc ++ [o]) ++ rest).map Offering.crn).Nodup := by
        rw [List.append_assoc]
        simpa using h
      rw [ih (acc ++ [o]) h2, List.append_assoc]
      rfl

theorem foldl_merge_dup {C : List Offering}
    (hinj : ∀ a ∈ C, ∀ b ∈ C, a.crn = b.crn → a = b) :
    ∀ (l : List Offering), (∀ o ∈ l, o ∈ C) → l.foldl merge_step C = C := by
  intro l
  induction l with
  | nil => intro _; rfl
  | cons o rest ih =>
      intro hl
      have ho : o ∈ C := hl o (List.mem_cons_self o rest)
      have hstep : merge_step C o = C := by
        unfold merge_step
        rw [if_pos (List.any_eq_true.mpr ⟨o, ho, by simp⟩)]
        have hmap : ∀ e ∈ C, (if e.crn = o.crn then merge_into e o else e) = e := by
          intro e he
          by_cases hc : e.crn = o.crn
          · rw [if_pos hc, hinj e he o ho hc]
            exact merge_into_self o
          · rw [if_neg hc]
        rw [map_congr_on _ id C fun e he => hmap e he, List.map_id]
      rw [List.foldl_cons, hstep]
      exact ih fun x hx => hl x (List.mem_cons_of_mem o hx)

theorem merge_self_append {C : List Offering} (h : (C.map Offering.crn).Nodup) :
    merge_offerings_by_crn (C ++ C) = C := by
  unfold merge_offerings_by_crn
  rw [List.foldl_append]
  have h1 : C.foldl merge_step [] = C := by
    have h2 := foldl_merge_fresh C [] (by simpa using h)
    simpa using h2
  rw [h1]
  exact foldl_merge_dup (crn_inj_of_nodup h) C fun o ho => ho

theorem dedup_fresh :
    ∀ (l : List Offering) (seen : List (String × List (DayOfWeek × Int × Int))),
      (∀ o ∈ l, offering_sig o ∉ seen) → ((l.map Offering.crn).Nodup) →
      dedup_go seen l = l := by
  intro l
  induction l with
  | nil => intro _ _ _; rfl
  | cons o rest ih =>
      intro seen hseen hnd
      have hany : ¬ (seen.any fun s => decide (s = offering_sig o)) = true := by
        intro hc
        rw [List.any_eq_true] at hc
        rcases hc with ⟨s, hs, hds⟩
        rw [decide_eq_true_eq] at hds
        exact hseen o (List.mem_cons_self o rest) (hds ▸ hs)
      unfold dedup_go
      rw [if_neg hany]
      congr 1
      apply ih
      · intro o' ho' hmem
        rcases List.mem_cons.mp hmem with h1 | h1
        · have hcc : o'.crn = o.crn := congrArg Prod.fst h1
          have hn : o.crn ∉ rest.map Offering.crn := by
            rw [List.map_cons, List.nodup_cons] at hnd
            exact hnd.1
          exact hn (hcc ▸ List.mem_map_of_mem Offering.crn ho')
        · exact hseen o' (List.mem_cons_of_mem o ho') h1
      · rw [List.map_cons, List.nodup_cons] at hnd
        exact hnd.2

theorem dedup_nodup {C : List Offering} (h : (C.map Offering.crn).Nodup) :
    deduplicate_offerings C = C :=
  dedup_fresh C [] (fun _ _ hmem => absurd hmem (List.not_mem_nil _)) h

/-- Claim C9: for every catalog with pairwise-distinct CRNs (the state
every CRN-merged and deduplicated catalog is in), CRN-merging the
concatenation of the catalog with itself and then deduplicating by
meeting signature returns the catalog unchanged. -/
theorem C9_merge_idem (C : List Offering) (h : (C.map Offering.crn).Nodup) :
    deduplicate_offerings (merge_offerings_by_crn (C ++ C)) = C := by
  rw [merge_self_append h, dedup_nodup h]

/-
Campus-include filtering (claim C4).
-/

/-- Claim C4, amended: when `campus_include` is given (non-empty, as a
Python truthy value) and the offering has at least one meeting, the
offering passes the pre-search filter only if some meeting's location
case-insensitively contains an included substring. An offering whose
meetings list is empty is not subject to the campus filters and is
retained. -/
theorem C4_campus_include (f : ScheduleFilters) (o : Offering) (l : List String)
    (hinc : f.campus_include = some l) (hne : l ≠ []) (hm : o.meetings ≠ [])
    (hkeep : prefilter_keep f o = true) :
    ∃ m ∈ o.meetings, loc_matches m l = true := by
  have hci : campus_include_ok f o = true := by
    simp only [prefilter_keep, Bool.and_eq_true] at hkeep
    exact hkeep.1.1.2
  unfold campus_include_ok at hci
  split at hci
  next heq =>
    rw [hinc] at heq
    cases heq
  next l' heq =>
    rw [hinc] at heq
    injection heq with heq
    subst heq
    rw [if_neg] at hci
    · rcases List.any_eq_true.mp hci with ⟨m, hm2, hmm⟩
      exact ⟨m, hm2, hmm⟩
    · rintro (h1 | h1)
      · exact hne h1
      · exact hm h1

/-
Concrete exhibits: small catalogs, requests and rows used to settle the
claims on explicit inputs.
-/

/-- A concrete ambient string hash (all hash values 0). -/
def h0 : String → Int := fun _ => 0

/-- A second concrete ambient string hash (all hash values 1). -/
def h1 : String → Int := fun _ => 1

/-- The pydantic defaults of `ScheduleFilters`. -/
def default_filters : ScheduleFilters :=
  ⟨[.open_], none, none, none, none, none, none, none, none, true, true⟩

def c1off : Offering :=
  ⟨"10001", "CS 100", "002", "INTRO", none, [⟨.mon, 600, 660, none⟩], .open_,
   none, none, none, .inPerson, some 3, none, none⟩

def c1req : SolveRequest :=
  ⟨["CS 100"], none, none, none, [], default_filters, 500⟩

/-- Claim C1, witness: on a concrete one-course catalog the returned
schedule is a member of the output and is pairwise conflict-free. -/
theorem C1_witness :
    (⟨[c1off], 3, 1 / 1000⟩ : Schedule) ∈ solve_schedules h0 [c1off] c1req ∧
      (Schedule.offerings ⟨[c1off], 3, 1 / 1000⟩).Pairwise OffOk :=
  ⟨by decide, C1_no_overlap h0 [c1off] c1req _ (by decide)⟩

def c2off : Offering :=
  ⟨"10001", "CS 100", "002", "X", none, [], .open_, none, none, none,
   .inPerson, some 3, none, none⟩

def c2req : SolveRequest :=
  ⟨["CS 100"], none, none, some 0, [], default_filters, 500⟩

/-- Claim C2: with `max_credits = 0` (set) the source's falsy guard
`if self.request.max_credits and ...` skips the check, so a schedule with
`total_credits = 3 > 0` is returned, violating the credit window. -/
theorem C2_max_zero_ignored :
    c2req.max_credits = some 0 ∧
      (solve_schedules h0 [c2off] c2req).map Schedule.total_credits = [3] := by
  decide

def c3off1 : Offering :=
  ⟨"1", "CS 100", "002", "X", none, [], .open_, none, none, none, .inPerson,
   none, none, none⟩

def c3off2 : Offering :=
  ⟨"2", "CS 100", "002", "X", none, [], .open_, none, none, none, .inPerson,
   none, none, none⟩

def c3off3 : Offering :=
  ⟨"3", "CS 100", "002", "X", none, [], .open_, none, none, none, .inPerson,
   none, none, none⟩

def c3req : SolveRequest :=
  ⟨["CS 100"], none, none, none, [], default_filters, 1⟩

/-- Claim C3: the early-termination `return` of `_backtrack` is a no-op
(the leaf returns anyway and the candidate loops of the ancestors keep
running), so with `max_results = 1` a three-candidate course fills the
buffer to 3 > 2 x max_results. -/
theorem C3_buffer_exceeds :
    2 * c3req.max_results <
      (solve_results h0 [c3off1, c3off2, c3off3] c3req).length := by
  decide

def c4f : ScheduleFilters :=
  ⟨[.open_], none, some ["newark"], none, none, none, none, none, none, true, true⟩

def c4o : Offering :=
  ⟨"5", "CS 100", "002", "X", none, [], .open_, none, none, none, .inPerson,
   none, none, none⟩

/-- Claim C4, counterexample: with `campus_include = ["newark"]` given, an
offering whose meetings list is empty is kept by the pre-search filter
(the source guards the campus filters with `and offering.meetings`),
contradicting the claim that it is removed. -/
theorem C4_counterexample :
    c4f.campus_include = some ["newark"] ∧ c4o.meetings = [] ∧
      prefilter_keep c4f c4o = true := by
  decide

def c4wf : ScheduleFilters :=
  ⟨[.open_], none, some ["kupf"], none, none, none, none, none, none, true, true⟩

def c4wo : Offering :=
  ⟨"6", "CS 100", "002", "X", none, [⟨.mon, 600, 660, some "KUPF 117"⟩], .open_,
   none, none, none, .inPerson, none, none, none⟩

/-- Claim C4, witness for the amended theorem: a concrete offering with a
meeting whose location matches the included campus passes the filter, and
the theorem produces the matching meeting. -/
theorem C4_witness : ∃ m ∈ c4wo.meetings, loc_matches m ["kupf"] = true :=
  C4_campus_include c4wf c4wo ["kupf"] rfl (by decide) (by decide) (by decide)

def c5row : Row :=
  ⟨"40001", "CS 100", "T", "002", "", "M", "13:00 PM - 2:00 PM", "GITC 116",
   "", "", "", "", "", "", "", ""⟩

/-- Claim C5: the normalizer performs no range or ordering validation on
parsed times: the row with `Times = "13:00 PM - 2:00 PM"` yields a meeting
with `start_min = 1500 > 1440` and `end_min = 840 < start_min`, violating
`0 <= start_min < end_min <= 1440`. -/
theorem C5_invalid_meeting :
    (normalize_csv_row c5row).map
        (fun o => o.meetings.map fun m => (m.day, m.start_min, m.end_min)) =
      some [(DayOfWeek.mon, 1500, 840)] := by
  decide

def c6o1 : Offering :=
  ⟨"1", "A 1", "002", "X", none, [⟨.mon, 540, 600, none⟩], .open_, none, none,
   none, .inPerson, none, none, none⟩

def c6o2 : Offering :=
  ⟨"2", "A 1", "002", "X", none, [⟨.mon, 630, 690, none⟩], .open_, none, none,
   none, .inPerson, none, none, none⟩

/-- Claim C6: a 30-minute gap with `max_gap_min = 0` set should contribute
`10 x 30 = 300` per the claim, but the source's falsy guard `if max_gap`
skips the penalty at 0 and the gap contributes 30; with
`max_gap_min = 20` the penalty applies and the same gap contributes 300. -/
theorem C6_gap_penalty_skipped_at_zero :
    compute_total_gaps (some 0) [c6o1, c6o2] = 30 ∧
      compute_total_gaps (some 20) [c6o1, c6o2] = 300 := by
  decide

def c7off : Offering :=
  ⟨"A1", "CS 100", "002", "X", none, [], .open_, none, none, none, .inPerson,
   none, none, none⟩

def c7req : SolveRequest :=
  ⟨["CS 100"], none, none, none, [], default_filters, 500⟩

/-- Claim C7, counterexample: with a non-numeric CRN the tie-break uses
the ambient string hash, so two invocations under different process hash
seeds (modelled as two hash oracles) return different schedule lists for
the same catalog and request. -/
theorem C7_counterexample :
    solve_schedules h0 [c7off] c7req ≠ solve_schedules h1 [c7off] c7req := by
  decide

def c7woff : Offering :=
  ⟨"10001", "CS 100", "002", "X", none, [], .open_, none, none, none,
   .inPerson, none, none, none⟩

/-- Claim C7, witness for the amended theorem: with an all-numeric-CRN
catalog the outputs under two different hash oracles coincide. -/
theorem C7_witness :
    (∀ o ∈ [c7woff], is_digits o.crn = true) ∧
      solve_schedules h0 [c7woff] c7req = solve_schedules h1 [c7woff] c7req :=
  ⟨by decide, C7_deterministic_numeric h0 h1 [c7woff] c7req (by decide)⟩

def c8rowT : Row :=
  ⟨"31501", "CS 100", "INTRO TO CS", "002", "", "T", "9:00 AM - 9:50 AM",
   "KUPF 117", "", "", "", "", "", "Smith", "", ""⟩

def c8rowR : Row :=
  ⟨"31501", "CS 100", "OTHER", "003", "", "R", "9:00 AM - 9:50 AM",
   "KUPF 118", "", "", "", "", "", "Jones", "", ""⟩

/-- Claim C8: normalizing the two rows sharing CRN 31501 (`Days = "T"` and
`Days = "R"`, both `9:00 AM - 9:50 AM`) and merging by CRN yields exactly
one offering whose meetings are Tue 540-590 and Thu 540-590, with the
first row's non-meeting attributes retained. -/
theorem C8_crn_merge :
    (deduplicate_offerings (merge_offerings_by_crn
        ([c8rowT, c8rowR].filterMap normalize_csv_row))).map
        (fun o => (o.crn, o.title, o.sectionId, o.instructor,
          o.meetings.map fun m => (m.day, m.start_min, m.end_min))) =
      [("31501", "INTRO TO CS", "002", some "Smith",
        [(DayOfWeek.tue, 540, 590), (DayOfWeek.thu, 540, 590)])] := by
  rfl

def c9off1 : Offering :=
  ⟨"11001", "CS 100", "002", "X", none, [⟨.mon, 600, 680, some "KUPF 117"⟩],
   .open_, some 30, some 12, some "Smith", .inPerson, some 3, none, none⟩

def c9off2 : Offering :=
  ⟨"12001", "MATH 111", "004", "Y", none, [⟨.tue, 540, 615, none⟩], .open_,
   none, none, none, .inPerson, some 4, none, none⟩

/-- Claim C9, witness: a concrete two-offering catalog with distinct CRNs
merges with itself to itself. -/
theorem C9_witness :
    (([c9off1, c9off2].map Offering.crn).Nodup) ∧
      deduplicate_offerings (merge_offerings_by_crn
        ([c9off1, c9off2] ++ [c9off1, c9off2])) = [c9off1, c9off2] :=
  ⟨by decide, C9_merge_idem [c9off1, c9off2] (by decide)⟩
